import Mathlib

/-!
# ClientIQ analytics core: shallow embedding and verification

This file embeds the analytics core of `backend/server.py` (the KPI
aggregator `get_kpis`, the AR-aging classifier `get_ar_aging`, the
profitability ranker `get_client_profitability`, and the RFM scorer
`get_rfm_analysis` with its helper `quintile`) as executable Lean
definitions, and proves the specified properties about them.

Modelling conventions:
* Monetary amounts and hour counts are rationals (`ℚ`); the Python code
  uses floats, and we embed the arithmetic at exact precision.
* Timestamps are integers counting seconds; Python's
  `(a - b).days` is `(a - b).fdiv 86400` (timedelta days floor toward
  negative infinity, matching `Int.fdiv`).
* A numeric record field (`amount`, `hours_billed`, `hours_worked`) is a
  `RawField`: `missing` (key absent, `dict.get` default applies;
  subscripting raises KeyError), `nonNumeric` (present and truthy but not
  a number, e.g. a non-empty non-numeric string: `float()` raises
  ValueError and arithmetic on it raises TypeError), or `num q`.
* A date field is `Option (Option ℤ)`: `none` is absent-or-falsy
  (`dict.get` yields a falsy value), `some none` is present and truthy
  but unparseable (`datetime.fromisoformat` raises), `some (some t)`
  parses to timestamp `t`.
* Python exceptions are modelled with `Except PyErr`; a bare
  `try/except: continue` around a record is a skip of that record.
-/

/-- Kinds of Python exception the embedded code can raise. -/
inductive PyErr where
  | keyError
  | typeError
  | valueError
deriving DecidableEq

/-- A numeric field of a stored record: absent, present-but-non-numeric
(truthy), or an actual number. -/
inductive RawField where
  | missing
  | nonNumeric
  | num (q : ℚ)
deriving DecidableEq

/-- A date field of a stored record: absent/falsy, truthy but
unparseable, or parsing to a timestamp in seconds. -/
abbrev DateField := Option (Option ℤ)

/-- An invoice record as stored (dict-like, fields possibly malformed). -/
structure Invoice where
  clientId : String
  status : String
  amount : RawField
  hoursBilled : RawField
  invoiceDate : DateField
  paidDate : DateField
  dueDate : DateField
deriving DecidableEq

/-- A client record (the fields the analytics core reads). -/
structure ClientRec where
  id : String
  name : String
  tier : String
  region : String
deriving DecidableEq

/-- A project record (the fields the analytics core reads). -/
structure Project where
  clientId : String
  hoursWorked : RawField
deriving DecidableEq

/-- Subscripting `inv["f"]` on a numeric field: KeyError when absent; a non-numeric
value flows into `sum`'s addition and raises TypeError. -/
def subscriptNum : RawField → Except PyErr ℚ
  | .missing => .error .keyError
  | .nonNumeric => .error .typeError
  | .num q => .ok q

/-- Evaluation of `float(d.get("f", 0) or 0)`: absent or falsy becomes `0`; a truthy
non-numeric value makes `float` raise ValueError. -/
def pyFloat : RawField → Except PyErr ℚ
  | .missing => .ok 0
  | .nonNumeric => .error .valueError
  | .num q => .ok q

/-- Reading `d.get("f", 0)` directly as a number (used where the code adds
the raw value with `+=`): absent defaults to `0`. Only meaningful when
the field is not `nonNumeric`. -/
def getNum0 : RawField → ℚ
  | .missing => 0
  | .nonNumeric => 0
  | .num q => q

/-- Python `sum` over a generator of fallible terms, left to right,
stopping at the first raised exception. -/
def exceptSum (f : α → Except PyErr ℚ) : List α → Except PyErr ℚ
  | [] => .ok 0
  | a :: l => do
      let x ← f a
      let r ← exceptSum f l
      pure (x + r)

/-- The KPI response of `get_kpis`. -/
structure KPI where
  totalRevenue : ℚ
  grossProfit : ℚ
  grossMarginPercent : ℚ
  outstandingAr : ℚ
  daysSalesOutstanding : ℚ
  billableHours : ℚ
deriving DecidableEq

/-- Embedding of `get_kpis` (server.py:693-715): sums use direct subscripting
(`inv["amount"]`, `inv["hours_billed"]`) with no per-record guard, so a
malformed field propagates as an exception. -/
def computeKPIs (invoices : List Invoice) : Except PyErr KPI := do
  let totalRevenue ← exceptSum (fun i => subscriptNum i.amount)
      (invoices.filter (fun i => decide (i.status = "paid")))
  let outstandingAr ← exceptSum (fun i => subscriptNum i.amount)
      (invoices.filter (fun i => decide (i.status = "unpaid" ∨ i.status = "overdue")))
  let billableHours ← exceptSum (fun i => subscriptNum i.hoursBilled) invoices
  let grossProfit := totalRevenue * (3 / 4 : ℚ)
  let grossMarginPercent := if 0 < totalRevenue then grossProfit / totalRevenue * 100 else 0
  pure { totalRevenue := totalRevenue
         grossProfit := grossProfit
         grossMarginPercent := grossMarginPercent
         outstandingAr := outstandingAr
         daysSalesOutstanding := 45
         billableHours := billableHours }

/-- The four aging buckets of `get_ar_aging`, all always present. -/
structure AgingBuckets where
  b0to30 : ℚ
  b31to60 : ℚ
  b61to90 : ℚ
  b90plus : ℚ
deriving DecidableEq

/-- One iteration of the `for invoice in unpaid_invoices` loop of
`get_ar_aging` (server.py:538-560): a falsy due date is skipped by the
`if due_date_str` guard; an unparseable one raises inside the
per-invoice `try` and the invoice is skipped; a non-numeric amount makes
`+=` raise inside the same `try`, also skipping the invoice. -/
def agingStep (now : ℤ) (b : AgingBuckets) (inv : Invoice) : AgingBuckets :=
  match inv.dueDate with
  | none => b
  | some none => b
  | some (some due) =>
    if inv.amount = .nonNumeric then b
    else
      let amount := getNum0 inv.amount
      let daysOverdue := (now - due).fdiv 86400
      if daysOverdue ≤ 30 then { b with b0to30 := b.b0to30 + amount }
      else if daysOverdue ≤ 60 then { b with b31to60 := b.b31to60 + amount }
      else if daysOverdue ≤ 90 then { b with b61to90 := b.b61to90 + amount }
      else { b with b90plus := b.b90plus + amount }

/-- Embedding of `get_ar_aging` (server.py:525-562): the database query pre-filters
status to unpaid/overdue, then each invoice is bucketed. -/
def computeAging (now : ℤ) (invoices : List Invoice) : AgingBuckets :=
  (invoices.filter (fun i => decide (i.status = "unpaid" ∨ i.status = "overdue"))).foldl
    (agingStep now) ⟨0, 0, 0, 0⟩

/-- Stable insertion of `a` into `l`: `a` goes in front of the first
element it may precede (`le a b`), so among elements it ties with, `a`
stays first. -/
def insertBy (le : α → α → Bool) (a : α) : List α → List α
  | [] => [a]
  | b :: l => if le a b then a :: b :: l else b :: insertBy le a l

/-- Stable sort by the total preorder `le` (`le a b` reads "`a` may
precede `b`"). Python's `list.sort`/`sorted` are stable sorts; a stable
sort's output is uniquely determined by the comparison, so this
insertion sort computes exactly what Timsort returns. It is
structurally recursive so the kernel can evaluate it. -/
def pySort (le : α → α → Bool) : List α → List α
  | [] => []
  | a :: l => insertBy le a (pySort le l)

/-- Floor of a rational in a form the kernel evaluates
(`Rat.den` is positive, so flooring is `Int.fdiv` of the numerator by
the denominator); `ratFloor_eq_floor` proves agreement. -/
def ratFloor (q : ℚ) : ℤ := q.num.fdiv (q.den : ℤ)

/-- A row of the `get_client_profitability` response. -/
structure ProfRow where
  clientId : String
  clientName : String
  tier : String
  region : String
  revenue : ℚ
  hoursWorked : ℚ
  profit : ℚ
  marginPercent : ℚ
  profitPerHour : ℚ
  outstandingAr : ℚ
  lastInvoiceDate : Option ℤ
deriving DecidableEq

/-- The `last_invoice_date` block of `get_client_profitability`
(server.py:740-752): collect the truthy `invoice_date` values; if any,
take the max of their parses, but if any parse raises, the inner
`except` resets the result to `None`. -/
def lastInvDate (invs : List Invoice) : Option ℤ :=
  let valid := invs.filterMap (fun i => i.invoiceDate)
  if valid = [] then none
  else if valid.all (fun d => d.isSome) then (valid.filterMap id).max?
  else none

/-- The body of the per-client `try` in `get_client_profitability`
(server.py:722-766): the three sums use `float(x.get(..., 0) or 0)`, so
a missing field is 0 while a truthy non-numeric one raises ValueError,
which the per-client `except` turns into skipping the client. -/
def clientRow (invoices : List Invoice) (projects : List Project) (c : ClientRec) :
    Except PyErr ProfRow := do
  let invs := invoices.filter (fun i => decide (i.clientId = c.id))
  let projs := projects.filter (fun p => decide (p.clientId = c.id))
  let revenue ← exceptSum (fun i => pyFloat i.amount)
      (invs.filter (fun i => decide (i.status = "paid")))
  let hoursWorked ← exceptSum (fun p => pyFloat p.hoursWorked) projs
  let outstandingAr ← exceptSum (fun i => pyFloat i.amount)
      (invs.filter (fun i => decide (i.status = "unpaid" ∨ i.status = "overdue")))
  let profit := revenue * (3 / 4 : ℚ)
  let marginPercent := if 0 < revenue then profit / revenue * 100 else 0
  let profitPerHour := if 0 < hoursWorked then profit / hoursWorked else 0
  pure { clientId := c.id
         clientName := c.name
         tier := c.tier
         region := c.region
         revenue := revenue
         hoursWorked := hoursWorked
         profit := profit
         marginPercent := marginPercent
         profitPerHour := profitPerHour
         outstandingAr := outstandingAr
         lastInvoiceDate := lastInvDate invs }

/-- The client loop of `get_client_profitability` (server.py:722-770):
rows in client order, a client whose computation raises is skipped by
the per-client `except ... continue`. -/
def profRows (clients : List ClientRec) (invoices : List Invoice) (projects : List Project) :
    List ProfRow :=
  clients.filterMap (fun c => (clientRow invoices projects c).toOption)

/-- The sort `result.sort(key=lambda x: x.revenue, reverse=True)` — a stable sort
by revenue descending (server.py:772). -/
def computeProfitability (clients : List ClientRec) (invoices : List Invoice)
    (projects : List Project) : List ProfRow :=
  pySort (fun a b => decide (b.revenue ≤ a.revenue)) (profRows clients invoices projects)

/-- An RFM row before scoring (the dict built at server.py:855-862). -/
structure RfmRaw where
  clientId : String
  clientName : String
  recencyDays : ℤ
  frequency : ℕ
  monetary : ℚ
  lastInvoiceDate : Option ℤ
deriving DecidableEq

/-- Evaluation of `inv.get("invoice_date") or inv.get("paid_date")` (server.py:837):
a falsy invoice date falls back to the paid date; a truthy but
unparseable invoice date does not. -/
def effDate (inv : Invoice) : DateField :=
  match inv.invoiceDate with
  | none => inv.paidDate
  | some d => some d

/-- The recency loop of `get_rfm_analysis` (server.py:835-846): track
the strictly-greater running maximum over parseable effective dates;
unparseable or absent dates are `continue`d. -/
def rfmLastDate (invs : List Invoice) : Option ℤ :=
  invs.foldl (fun last inv =>
    match effDate inv with
    | none => last
    | some none => last
    | some (some d) =>
      match last with
      | none => some d
      | some l => if l < d then some d else some l) none

/-- Computation of `recency_days = (now - last_invoice_date).days if last_invoice_date
else 9999` (server.py:847). -/
def recencyDaysOf (now : ℤ) (invs : List Invoice) : ℤ :=
  match rfmLastDate invs with
  | some l => (now - l).fdiv 86400
  | none => 9999

/-- Grouping `invoices_by_client` (server.py:820-825): invoices with a
falsy `client_id` are never grouped, and a client's group is the
sublist of invoices carrying its id, in input order. -/
def rfmGroup (invoices : List Invoice) (cid : String) : List Invoice :=
  invoices.filter (fun i => decide (i.clientId = cid ∧ ¬ cid = ""))

/-- The per-client raw-metric loop of `get_rfm_analysis`
(server.py:828-862): clients with no invoices are skipped; `monetary`
sums `float(inv.get("amount", 0) or 0)` so a truthy non-numeric amount
raises out of the whole endpoint. -/
def rfmBase (now : ℤ) (invoices : List Invoice) : List ClientRec → Except PyErr (List RfmRaw)
  | [] => .ok []
  | c :: cs =>
    let invs := rfmGroup invoices c.id
    if invs = [] then rfmBase now invoices cs
    else do
      let monetary ← exceptSum (fun i => pyFloat i.amount) invs
      let rest ← rfmBase now invoices cs
      pure ({ clientId := c.id
              clientName := c.name
              recencyDays := recencyDaysOf now invs
              frequency := invs.length
              monetary := monetary
              lastInvoiceDate := rfmLastDate invs } :: rest)

/-- Embedding of `quintile` (server.py:865-874). Python's `int()` truncation equals
the floor here because the operand `pos / max(n-1, 1) * 5` is
non-negative; `ratFloor` is that floor. -/
def quintile (sortedVals : List ℚ) (v : ℚ) (invert : Bool) : ℤ :=
  if sortedVals = [] then 1
  else
    let n := sortedVals.length
    let pos : ℕ := (sortedVals.findIdx? (fun x => decide (v ≤ x))).getD (n - 1)
    let score : ℤ := ratFloor (((pos : ℚ) / ((max (n - 1) 1 : ℕ) : ℚ)) * 5) + 1
    let score := min (max score 1) 5
    if invert then 6 - score else score

/-- The segment if-chain of `get_rfm_analysis` (server.py:891-903). -/
def segmentOf (R F M : ℤ) : String :=
  if 4 ≤ R ∧ 4 ≤ F ∧ 4 ≤ M then "Champion"
  else if 4 ≤ F ∧ 4 ≤ M then "Loyal"
  else if 4 ≤ R ∧ 2 ≤ F then "Potential"
  else if R ≤ 2 ∧ (3 ≤ F ∨ 3 ≤ M) then "At Risk"
  else if R ≤ 2 ∧ F ≤ 2 ∧ M ≤ 2 then "Lost"
  else "Other"

/-- A fully scored RFM row. -/
structure RfmRow where
  clientId : String
  clientName : String
  recencyDays : ℤ
  frequency : ℕ
  monetary : ℚ
  lastInvoiceDate : Option ℤ
  R : ℤ
  F : ℤ
  M : ℤ
  rfmScore : ℤ
  segment : String
deriving DecidableEq

/-- Ascending comparison used for Python's `sorted` on numbers. -/
def ascend (a b : ℚ) : Bool := decide (a ≤ b)

/-- The scoring step of the `for row in rfm_data` loop
(server.py:880-903): recency is the only inverted quintile. -/
def scoreRow (recVals freqVals monVals : List ℚ) (r : RfmRaw) : RfmRow :=
  let R := quintile recVals (r.recencyDays : ℚ) true
  let F := quintile freqVals (r.frequency : ℚ) false
  let M := quintile monVals r.monetary false
  { clientId := r.clientId
    clientName := r.clientName
    recencyDays := r.recencyDays
    frequency := r.frequency
    monetary := r.monetary
    lastInvoiceDate := r.lastInvoiceDate
    R := R
    F := F
    M := M
    rfmScore := R + F + M
    segment := segmentOf R F M }

/-- Comparator of `rfm_data.sort(key=lambda x: (x["rfm_score"], x["monetary"]),
reverse=True)` (server.py:906): `a` may precede `b` when `b`'s key is
lexicographically at most `a`'s. -/
def rfmSortKeyLe (a b : RfmRow) : Bool :=
  decide (b.rfmScore < a.rfmScore ∨ (b.rfmScore = a.rfmScore ∧ b.monetary ≤ a.monetary))

/-- The list `rec_vals = sorted([x["recency_days"] for x in rfm_data])`
(server.py:876). -/
def sortedRecVals (base : List RfmRaw) : List ℚ :=
  pySort ascend (base.map (fun r => (r.recencyDays : ℚ)))

/-- The list `freq_vals = sorted([x["frequency"] for x in rfm_data])`
(server.py:877). -/
def sortedFreqVals (base : List RfmRaw) : List ℚ :=
  pySort ascend (base.map (fun r => (r.frequency : ℚ)))

/-- The list `mon_vals = sorted([x["monetary"] for x in rfm_data])`
(server.py:878). -/
def sortedMonVals (base : List RfmRaw) : List ℚ :=
  pySort ascend (base.map (fun r => r.monetary))

/-- Embedding of `get_rfm_analysis` (server.py:808-907): raw metrics per client with
at least one invoice, quintile scoring against the population's sorted
value lists, segmentation, and the final stable descending sort. -/
def computeRFM (now : ℤ) (clients : List ClientRec) (invoices : List Invoice) :
    Except PyErr (List RfmRow) := do
  let base ← rfmBase now invoices clients
  pure (pySort rfmSortKeyLe
    (base.map (scoreRow (sortedRecVals base) (sortedFreqVals base) (sortedMonVals base))))

/-- A plain (never-failing) sum, for stating what the fallible sums
compute. -/
def sumBy (f : α → ℚ) : List α → ℚ
  | [] => 0
  | a :: l => f a + sumBy f l

/-- The raw quintile score exactly as §4.4 of the spec words it: `pos`
is the index of the first element of the ascending-sorted sequence that
is `≥ v` (the last index when `v` exceeds all elements), and the score
is `floor(pos / max(n-1, 1) * 5) + 1` clamped to `[1, 5]`. -/
def rawQuintileSpec (vals : List ℚ) (v : ℚ) : ℤ :=
  let n := vals.length
  let pos : ℕ := (vals.findIdx? (fun x => decide (v ≤ x))).getD (n - 1)
  min (max (⌊((pos : ℚ) / ((max (n - 1) 1 : ℕ) : ℚ)) * 5⌋ + 1) 1) 5

/-- The ordered segmentation rule list of §4.4 of the spec. -/
def segRules : List ((ℤ → ℤ → ℤ → Bool) × String) :=
  [ (fun R F M => decide (4 ≤ R ∧ 4 ≤ F ∧ 4 ≤ M), "Champion"),
    (fun _ F M => decide (4 ≤ F ∧ 4 ≤ M), "Loyal"),
    (fun R F _ => decide (4 ≤ R ∧ 2 ≤ F), "Potential"),
    (fun R F M => decide (R ≤ 2 ∧ (3 ≤ F ∨ 3 ≤ M)), "At Risk"),
    (fun R F M => decide (R ≤ 2 ∧ F ≤ 2 ∧ M ≤ 2), "Lost") ]

/-- First-matching-rule semantics for the segment label, as the spec
words it: the first rule of `segRules` that matches wins, and the
fallback is "Other". -/
def segmentSpec (R F M : ℤ) : String :=
  match segRules.find? (fun rule => rule.1 R F M) with
  | some rule => rule.2
  | none => "Other"

/-- Fixture: a paid invoice of client c1, invoiced at epoch 0. -/
def wInv1 : Invoice := ⟨"c1", "paid", .num 100, .num 2, some (some 0), none, some (some 100)⟩

/-- Fixture: an unpaid invoice of client c2, invoiced one day after
epoch. -/
def wInv2 : Invoice := ⟨"c2", "unpaid", .num 50, .num 1, some (some 86400), none, some (some 0)⟩

/-- Fixture: a two-client population. -/
def wCs : List ClientRec := [⟨"c1", "A", "t", "r"⟩, ⟨"c2", "B", "t", "r"⟩]

/-- Fixture: the RFM row computed for c1 at `now = 864000`. -/
def wRow1 : RfmRow := ⟨"c1", "A", 10, 1, 100, some 0, 1, 1, 5, 7, "At Risk"⟩

/-- Fixture: the RFM row computed for c2 at `now = 864000`. -/
def wRow2 : RfmRow := ⟨"c2", "B", 9, 1, 50, some 86400, 5, 1, 1, 7, "Other"⟩

/-- Fixture: the full RFM output at `now = 864000`. -/
def wRows : List RfmRow := [wRow1, wRow2]

/-- Computation of `days_overdue = (now - due_date).days` when the due date is present
and parseable (server.py:547). -/
def dueDays (now : ℤ) (i : Invoice) : Option ℤ :=
  match i.dueDate with
  | some (some due) => some ((now - due).fdiv 86400)
  | _ => none

/-- The bucket label for a days-overdue value, with the spec's inclusive
upper bounds (§4.2): `d ≤ 30` is "0-30", `31 ≤ d ≤ 60` is "31-60",
`61 ≤ d ≤ 90` is "61-90", `91 ≤ d` is "90+". -/
def bucketSpec (d : ℤ) : String :=
  if d ≤ 30 then "0-30"
  else if 31 ≤ d ∧ d ≤ 60 then "31-60"
  else if 61 ≤ d ∧ d ≤ 90 then "61-90"
  else "90+"

/-- An invoice contributes to the bucket `label`: its due date parses,
its amount is not a truthy non-numeric value, and its days-overdue falls
in the bucket. -/
def bucketable (now : ℤ) (label : String) (i : Invoice) : Bool :=
  !(decide (i.amount = RawField.nonNumeric)) &&
    (match dueDays now i with
     | some d => decide (bucketSpec d = label)
     | none => false)

/-- The spec-side bucket total: the sum of `amount` over unpaid/overdue
invoices whose days-overdue falls in the bucket `label`. -/
def bucketSum (now : ℤ) (label : String) (invs : List Invoice) : ℚ :=
  sumBy (fun i => getNum0 i.amount)
    ((invs.filter (fun i => decide (i.status = "unpaid" ∨ i.status = "overdue"))).filter
      (bucketable now label))

/-- Fixture: an unpaid invoice due one day in the future. -/
def wInvFuture : Invoice := ⟨"c9", "unpaid", .num 5, .num 0, none, none, some (some 86400)⟩

/-- The per-invoice date the recency loop uses, when it parses:
`invoice_date or paid_date`, `None` when absent or unparseable. -/
def parsedEffDate (i : Invoice) : Option ℤ :=
  match effDate i with
  | some (some t) => some t
  | _ => none

/-- Merge of two optional maxima. -/
def mergeMax : Option ℤ → Option ℤ → Option ℤ
  | none, r => r
  | some a, none => some a
  | some a, some b => some (max a b)

/-- Fixture: a third client with no invoices. -/
def wC3 : ClientRec := ⟨"c3", "C", "t", "r"⟩

/-- Fixture: the three-client population. -/
def wCs3 : List ClientRec := [⟨"c1", "A", "t", "r"⟩, ⟨"c2", "B", "t", "r"⟩, wC3]

/-- Fixture: one 10-hour project owned by the invoice-less client. -/
def wPs : List Project := [⟨"c3", RawField.num 10⟩]

/-- Fixture: an invoice with a truthy non-numeric amount. -/
def wBadAmt : Invoice := ⟨"cX", "paid", RawField.nonNumeric, RawField.num 1, none, none, none⟩

/-- Fixture: an invoice whose only malformation is an unparseable
invoice date. -/
def wBadDate : Invoice := ⟨"c1", "paid", RawField.num 100, RawField.num 1, some none, none, none⟩

/-- Fixture: a paid invoice whose amount field is missing. -/
def wMissingAmt : Invoice := ⟨"c1", "paid", RawField.missing, RawField.num 1, none, none, none⟩


/-! ## Generic lemmas: stable insertion sort and fallible sums -/

theorem insertBy_perm (le : α → α → Bool) (a : α) :
    ∀ l : List α, List.Perm (insertBy le a l) (a :: l) := by
  intro l
  induction l with
  | nil => simp [insertBy]
  | cons b l ih =>
    rw [insertBy]
    split
    · exact List.Perm.refl _
    · exact (ih.cons b).trans (List.Perm.swap a b l)

theorem pySort_perm (le : α → α → Bool) :
    ∀ l : List α, List.Perm (pySort le l) l := by
  intro l
  induction l with
  | nil => simp [pySort]
  | cons a l ih => exact (insertBy_perm le a (pySort le l)).trans (ih.cons a)

theorem mem_insertBy (le : α → α → Bool) (a x : α) (l : List α) :
    x ∈ insertBy le a l ↔ x = a ∨ x ∈ l := by
  rw [(insertBy_perm le a l).mem_iff]
  simp

theorem mem_pySort (le : α → α → Bool) (x : α) (l : List α) :
    x ∈ pySort le l ↔ x ∈ l :=
  (pySort_perm le l).mem_iff

theorem insertBy_pairwise (le : α → α → Bool)
    (trans : ∀ a b c, le a b = true → le b c = true → le a c = true)
    (total : ∀ a b, le a b = true ∨ le b a = true) (a : α) :
    ∀ l : List α, l.Pairwise (fun x y => le x y = true) →
      (insertBy le a l).Pairwise (fun x y => le x y = true) := by
  intro l
  induction l with
  | nil => intro _; simp [insertBy]
  | cons b l ih =>
    intro h
    rw [insertBy]
    rcases List.pairwise_cons.mp h with ⟨hb, hl⟩
    split
    · rename_i hab
      refine List.pairwise_cons.mpr ⟨?_, h⟩
      intro x hx
      rcases List.mem_cons.mp hx with rfl | hx
      · exact hab
      · exact trans a b x hab (hb x hx)
    · rename_i hab
      refine List.pairwise_cons.mpr ⟨?_, ih hl⟩
      intro x hx
      rcases (mem_insertBy le a x l).mp hx with rfl | hx
      · rcases total x b with h1 | h1
        · exact absurd h1 hab
        · exact h1
      · exact hb x hx

theorem pySort_pairwise (le : α → α → Bool)
    (trans : ∀ a b c, le a b = true → le b c = true → le a c = true)
    (total : ∀ a b, le a b = true ∨ le b a = true) :
    ∀ l : List α, (pySort le l).Pairwise (fun x y => le x y = true) := by
  intro l
  induction l with
  | nil => simp [pySort]
  | cons a l ih => exact insertBy_pairwise le trans total a _ ih

theorem insertBy_filter (le : α → α → Bool) (p : α → Bool)
    (hle : ∀ x y, p x = true → p y = true → le x y = true) (a : α) :
    ∀ l : List α, (insertBy le a l).filter p =
      if p a then a :: l.filter p else l.filter p := by
  intro l
  induction l with
  | nil => rw [insertBy]; simp [List.filter_cons]
  | cons b l ih =>
    rw [insertBy]
    split
    · simp [List.filter_cons]
    · rename_i hab
      cases hpb : p b with
      | true =>
        have hpa : p a = false := by
          cases hpa : p a with
          | true => exact absurd (hle a b hpa hpb) hab
          | false => rfl
        simp [List.filter_cons, hpb, hpa, ih]
      | false =>
        simp [List.filter_cons, hpb, ih]

theorem pySort_filter (le : α → α → Bool) (p : α → Bool)
    (hle : ∀ x y, p x = true → p y = true → le x y = true) :
    ∀ l : List α, (pySort le l).filter p = l.filter p := by
  intro l
  induction l with
  | nil => simp [pySort]
  | cons a l ih =>
    rw [pySort, insertBy_filter le p hle, List.filter_cons, ih]

/-- Sorting rationals ascending depends only on the multiset of
values. -/
theorem pySort_ascend_eq_of_perm {l₁ l₂ : List ℚ} (h : List.Perm l₁ l₂) :
    pySort ascend l₁ = pySort ascend l₂ := by
  have htr : ∀ a b c : ℚ, ascend a b = true → ascend b c = true → ascend a c = true := by
    intro a b c h1 h2
    simp only [ascend, decide_eq_true_eq] at h1 h2 ⊢
    exact le_trans h1 h2
  have hto : ∀ a b : ℚ, ascend a b = true ∨ ascend b a = true := by
    intro a b
    simp only [ascend, decide_eq_true_eq]
    exact le_total a b
  refine List.eq_of_perm_of_sorted
    (r := fun a b : ℚ => a ≤ b)
    (((pySort_perm ascend l₁).trans h).trans (pySort_perm ascend l₂).symm) ?_ ?_
  · exact (pySort_pairwise ascend htr hto l₁).imp (fun hx => by
      simpa [ascend] using hx)
  · exact (pySort_pairwise ascend htr hto l₂).imp (fun hx => by
      simpa [ascend] using hx)

theorem exceptSum_ok (f : α → Except PyErr ℚ) (g : α → ℚ) :
    ∀ l : List α, (∀ a ∈ l, f a = .ok (g a)) → exceptSum f l = .ok (sumBy g l) := by
  intro l
  induction l with
  | nil => intro _; rfl
  | cons a l ih =>
    intro h
    rw [exceptSum, h a (List.mem_cons_self a l),
      ih (fun b hb => h b (List.mem_cons_of_mem a hb))]
    rfl

theorem exceptSum_error (f : α → Except PyErr ℚ) {a : α} {e : PyErr} :
    ∀ l : List α, a ∈ l → f a = .error e → ∃ e2, exceptSum f l = .error e2 := by
  intro l
  induction l with
  | nil => intro h; exact absurd h (List.not_mem_nil a)
  | cons b l ih =>
    intro hmem herr
    rcases List.mem_cons.mp hmem with rfl | hmem
    · exact ⟨e, by rw [exceptSum, herr]; rfl⟩
    · cases hb : f b with
      | error e3 => exact ⟨e3, by rw [exceptSum, hb]; rfl⟩
      | ok q =>
        rcases ih hmem herr with ⟨e2, h2⟩
        exact ⟨e2, by rw [exceptSum, hb, h2]; rfl⟩

theorem ratFloor_eq_floor (q : ℚ) : ratFloor q = ⌊q⌋ := by
  rw [Rat.floor_def, ratFloor, Int.fdiv_eq_ediv]
  exact_mod_cast Nat.zero_le q.den

theorem quintile_false_eq (svals : List ℚ) (v : ℚ) (h : svals ≠ []) :
    quintile svals v false = rawQuintileSpec svals v := by
  rw [quintile, if_neg h, rawQuintileSpec]
  simp [ratFloor_eq_floor]

theorem quintile_true_eq (svals : List ℚ) (v : ℚ) (h : svals ≠ []) :
    quintile svals v true = 6 - rawQuintileSpec svals v := by
  rw [quintile, if_neg h, rawQuintileSpec]
  simp [ratFloor_eq_floor]

theorem clampRange (s : ℤ) (b : Bool) :
    1 ≤ (if b then 6 - min (max s 1) 5 else min (max s 1) 5) ∧
      (if b then 6 - min (max s 1) 5 else min (max s 1) 5) ≤ 5 := by
  have h1 : 1 ≤ min (max s 1) 5 := le_min (le_max_right _ _) (by norm_num)
  have h2 : min (max s 1) 5 ≤ 5 := min_le_right _ _
  cases b <;> simp only [if_true, if_false, Bool.false_eq_true, ite_false, ite_true] <;>
    exact ⟨by omega, by omega⟩

theorem quintile_range (svals : List ℚ) (v : ℚ) (b : Bool) :
    1 ≤ quintile svals v b ∧ quintile svals v b ≤ 5 := by
  simp only [quintile]
  split
  · norm_num
  · exact clampRange _ b

theorem segmentOf_eq_spec (R F M : ℤ) : segmentOf R F M = segmentSpec R F M := by
  rw [segmentOf, segmentSpec, segRules]
  by_cases h1 : 4 ≤ R ∧ 4 ≤ F ∧ 4 ≤ M
  · simp [List.find?, h1]
  · by_cases h2 : 4 ≤ F ∧ 4 ≤ M
    · have hR : ¬ 4 ≤ R := fun hr => h1 ⟨hr, h2.1, h2.2⟩
      simp [List.find?, h1, h2, hR]
    · by_cases h3 : 4 ≤ R ∧ 2 ≤ F
      · simp [List.find?, h1, h2, h3]
      · by_cases h4 : R ≤ 2 ∧ (3 ≤ F ∨ 3 ≤ M)
        · simp [List.find?, h1, h2, h3, h4]
        · by_cases h5 : R ≤ 2 ∧ F ≤ 2 ∧ M ≤ 2
          · have hFM : ¬ (3 ≤ F ∨ 3 ≤ M) := fun hfm => h4 ⟨h5.1, hfm⟩
            rcases not_or.mp hFM with ⟨hF, hM⟩
            simp [List.find?, h1, h2, h3, h4, h5, hF, hM]
          · simp [List.find?, h1, h2, h3, h4, h5]

theorem computeRFM_ok_elim {now : ℤ} {cs : List ClientRec} {invs : List Invoice}
    {rows : List RfmRow} (h : computeRFM now cs invs = .ok rows) :
    ∃ base, rfmBase now invs cs = .ok base ∧
      rows = pySort rfmSortKeyLe
        (base.map (scoreRow (sortedRecVals base) (sortedFreqVals base) (sortedMonVals base))) := by
  rw [computeRFM] at h
  cases hb : rfmBase now invs cs with
  | error e =>
    rw [hb] at h
    simp [Bind.bind, Except.bind] at h
  | ok base =>
    rw [hb] at h
    refine ⟨base, rfl, ?_⟩
    simp only [Bind.bind, Except.bind, pure, Except.pure, Except.ok.injEq] at h
    exact h.symm

theorem rfmBase_mem {now : ℤ} {invs : List Invoice} :
    ∀ {cs : List ClientRec} {base : List RfmRaw}, rfmBase now invs cs = .ok base →
    ∀ r ∈ base, ∃ c ∈ cs, r.clientId = c.id ∧ r.clientName = c.name ∧
      rfmGroup invs c.id ≠ [] ∧
      r.recencyDays = recencyDaysOf now (rfmGroup invs c.id) ∧
      r.frequency = (rfmGroup invs c.id).length ∧
      r.lastInvoiceDate = rfmLastDate (rfmGroup invs c.id) ∧
      exceptSum (fun i => pyFloat i.amount) (rfmGroup invs c.id) = .ok r.monetary := by
  intro cs
  induction cs with
  | nil =>
    intro base h r hr
    rw [rfmBase] at h
    cases h
    exact absurd hr (List.not_mem_nil r)
  | cons c cs ih =>
    intro base h r hr
    rw [rfmBase] at h
    split at h
    · rcases ih h r hr with ⟨c2, hc2, hrest⟩
      exact ⟨c2, List.mem_cons_of_mem c hc2, hrest⟩
    · rename_i hne
      cases hm : exceptSum (fun i => pyFloat i.amount) (rfmGroup invs c.id) with
      | error e => rw [hm] at h; simp [Bind.bind, Except.bind] at h
      | ok m =>
        rw [hm] at h
        cases hrest : rfmBase now invs cs with
        | error e => rw [hrest] at h; simp [Bind.bind, Except.bind] at h
        | ok rest =>
          rw [hrest] at h
          simp only [Bind.bind, Except.bind, pure, Except.pure, Except.ok.injEq] at h
          subst h
          rcases List.mem_cons.mp hr with rfl | hr2
          · exact ⟨c, List.mem_cons_self c cs, rfl, rfl, hne, rfl, rfl, rfl, hm⟩
          · rcases ih hrest r hr2 with ⟨c2, hc2, hrest2⟩
            exact ⟨c2, List.mem_cons_of_mem c hc2, hrest2⟩

theorem sortedRecVals_of_rows {base : List RfmRaw} {rows : List RfmRow}
    (hrows : rows = pySort rfmSortKeyLe
      (base.map (scoreRow (sortedRecVals base) (sortedFreqVals base) (sortedMonVals base)))) :
    pySort ascend (rows.map (fun x => (x.recencyDays : ℚ))) = sortedRecVals base ∧
    pySort ascend (rows.map (fun x => (x.frequency : ℚ))) = sortedFreqVals base ∧
    pySort ascend (rows.map (fun x => x.monetary)) = sortedMonVals base := by
  subst hrows
  refine ⟨?_, ?_, ?_⟩
  · refine pySort_ascend_eq_of_perm ?_
    have h1 := (pySort_perm rfmSortKeyLe
      (base.map (scoreRow (sortedRecVals base) (sortedFreqVals base)
        (sortedMonVals base)))).map (fun x => (x.recencyDays : ℚ))
    rw [List.map_map] at h1
    exact h1
  · refine pySort_ascend_eq_of_perm ?_
    have h1 := (pySort_perm rfmSortKeyLe
      (base.map (scoreRow (sortedRecVals base) (sortedFreqVals base)
        (sortedMonVals base)))).map (fun x => (x.frequency : ℚ))
    rw [List.map_map] at h1
    exact h1
  · refine pySort_ascend_eq_of_perm ?_
    have h1 := (pySort_perm rfmSortKeyLe
      (base.map (scoreRow (sortedRecVals base) (sortedFreqVals base)
        (sortedMonVals base)))).map (fun x => x.monetary)
    rw [List.map_map] at h1
    exact h1

/-- C1: in the RFM output each client's R, F, M score is the quintile
formula of §4.4 — position of the first ≥ element in the
ascending-sorted population values, `floor(pos / max(n-1,1) * 5) + 1`
clamped to `[1, 5]`, inverted (`6 − raw`) for recency only — and
consequently R, F, M ∈ [1, 5] and `rfm_score = R + F + M ∈ [3, 15]`. -/
theorem c1_rfm_quintile_scoring (now : ℤ) (cs : List ClientRec) (invs : List Invoice)
    (rows : List RfmRow) (h : computeRFM now cs invs = .ok rows)
    (row : RfmRow) (hrow : row ∈ rows) :
    row.R = 6 - rawQuintileSpec
      (pySort ascend (rows.map (fun x => (x.recencyDays : ℚ)))) (row.recencyDays : ℚ) ∧
    row.F = rawQuintileSpec
      (pySort ascend (rows.map (fun x => (x.frequency : ℚ)))) (row.frequency : ℚ) ∧
    row.M = rawQuintileSpec
      (pySort ascend (rows.map (fun x => x.monetary))) row.monetary ∧
    1 ≤ row.R ∧ row.R ≤ 5 ∧ 1 ≤ row.F ∧ row.F ≤ 5 ∧ 1 ≤ row.M ∧ row.M ≤ 5 ∧
    row.rfmScore = row.R + row.F + row.M ∧ 3 ≤ row.rfmScore ∧ row.rfmScore ≤ 15 := by
  obtain ⟨base, hb, hrows⟩ := computeRFM_ok_elim h
  obtain ⟨hrec, hfreq, hmon⟩ := sortedRecVals_of_rows hrows
  rw [hrec, hfreq, hmon]
  have hmem : row ∈ base.map (scoreRow (sortedRecVals base) (sortedFreqVals base)
      (sortedMonVals base)) := by
    rw [hrows] at hrow
    exact (mem_pySort _ _ _).mp hrow
  obtain ⟨raw, hraw, heq⟩ := List.mem_map.mp hmem
  have hbase_ne : base ≠ [] := by
    intro hnil
    rw [hnil] at hraw
    exact absurd hraw (List.not_mem_nil raw)
  have hlen : 0 < base.length := List.length_pos.mpr hbase_ne
  have hrv_ne : sortedRecVals base ≠ [] := by
    have := (pySort_perm ascend (base.map (fun r => (r.recencyDays : ℚ)))).length_eq
    rw [sortedRecVals]
    intro hnil
    rw [hnil] at this
    simp at this
    omega
  have hfv_ne : sortedFreqVals base ≠ [] := by
    have := (pySort_perm ascend (base.map (fun r => (r.frequency : ℚ)))).length_eq
    rw [sortedFreqVals]
    intro hnil
    rw [hnil] at this
    simp at this
    omega
  have hmv_ne : sortedMonVals base ≠ [] := by
    have := (pySort_perm ascend (base.map (fun r => r.monetary))).length_eq
    rw [sortedMonVals]
    intro hnil
    rw [hnil] at this
    simp at this
    omega
  subst heq
  simp only [scoreRow]
  obtain ⟨hR1, hR2⟩ := quintile_range (sortedRecVals base) (raw.recencyDays : ℚ) true
  obtain ⟨hF1, hF2⟩ := quintile_range (sortedFreqVals base) (raw.frequency : ℚ) false
  obtain ⟨hM1, hM2⟩ := quintile_range (sortedMonVals base) raw.monetary false
  refine ⟨?_, ?_, ?_, hR1, hR2, hF1, hF2, hM1, hM2, trivial, by omega, by omega⟩
  · exact quintile_true_eq _ _ hrv_ne
  · exact quintile_false_eq _ _ hfv_ne
  · exact quintile_false_eq _ _ hmv_ne

/-- Witness for C1 at the concrete two-client population. -/
theorem c1_rfm_quintile_scoring_witness :
    computeRFM 864000 wCs [wInv1, wInv2] = .ok wRows ∧ wRow1 ∈ wRows ∧
    1 ≤ wRow1.R ∧ wRow1.R ≤ 5 ∧ wRow1.rfmScore = wRow1.R + wRow1.F + wRow1.M :=
  have h : computeRFM 864000 wCs [wInv1, wInv2] = .ok wRows := by with_unfolding_all rfl
  have hm : wRow1 ∈ wRows := by decide
  have hc := c1_rfm_quintile_scoring 864000 wCs [wInv1, wInv2] wRows h wRow1 hm
  ⟨h, hm, hc.2.2.2.1, hc.2.2.2.2.1, hc.2.2.2.2.2.2.2.2.2.1⟩

/-- C2: in the RFM output the segment label is exactly the
first-matching rule of the ordered rule list (Champion, Loyal,
Potential, At Risk, Lost, else Other) applied to the row's (R, F, M). -/
theorem c2_segment_rule (now : ℤ) (cs : List ClientRec) (invs : List Invoice)
    (rows : List RfmRow) (h : computeRFM now cs invs = .ok rows)
    (row : RfmRow) (hrow : row ∈ rows) :
    row.segment = segmentSpec row.R row.F row.M := by
  obtain ⟨base, hb, hrows⟩ := computeRFM_ok_elim h
  have hmem : row ∈ base.map (scoreRow (sortedRecVals base) (sortedFreqVals base)
      (sortedMonVals base)) := by
    rw [hrows] at hrow
    exact (mem_pySort _ _ _).mp hrow
  obtain ⟨raw, hraw, heq⟩ := List.mem_map.mp hmem
  subst heq
  simp only [scoreRow]
  exact segmentOf_eq_spec _ _ _

/-- Witness for C2 at the concrete two-client population. -/
theorem c2_segment_rule_witness :
    computeRFM 864000 wCs [wInv1, wInv2] = .ok wRows ∧ wRow1 ∈ wRows ∧
    wRow1.segment = segmentSpec wRow1.R wRow1.F wRow1.M :=
  have h : computeRFM 864000 wCs [wInv1, wInv2] = .ok wRows := by with_unfolding_all rfl
  have hm : wRow1 ∈ wRows := by decide
  ⟨h, hm, c2_segment_rule 864000 wCs [wInv1, wInv2] wRows h wRow1 hm⟩

theorem aging_foldl (now : ℤ) :
    ∀ (l : List Invoice) (b : AgingBuckets),
      l.foldl (agingStep now) b =
        ⟨b.b0to30 + sumBy (fun i => getNum0 i.amount) (l.filter (bucketable now "0-30")),
         b.b31to60 + sumBy (fun i => getNum0 i.amount) (l.filter (bucketable now "31-60")),
         b.b61to90 + sumBy (fun i => getNum0 i.amount) (l.filter (bucketable now "61-90")),
         b.b90plus + sumBy (fun i => getNum0 i.amount) (l.filter (bucketable now "90+"))⟩ := by
  intro l
  induction l with
  | nil =>
    intro b
    cases b
    simp [sumBy]
  | cons i l ih =>
    intro b
    rw [List.foldl_cons, ih]
    rcases hdue : i.dueDate with _ | d
    · simp [agingStep, hdue, bucketable, dueDays, List.filter_cons]
    · rcases d with _ | due
      · simp [agingStep, hdue, bucketable, dueDays, List.filter_cons]
      · by_cases hamt : i.amount = RawField.nonNumeric
        · simp [agingStep, hdue, bucketable, dueDays, List.filter_cons, hamt]
        · by_cases h30 : (now - due).fdiv 86400 ≤ 30
          · have e : bucketSpec ((now - due).fdiv 86400) = "0-30" := by
              rw [bucketSpec, if_pos h30]
            simp [agingStep, hdue, bucketable, dueDays, List.filter_cons, hamt, h30, e,
              sumBy, add_assoc]
          · by_cases h60 : (now - due).fdiv 86400 ≤ 60
            · have e : bucketSpec ((now - due).fdiv 86400) = "31-60" := by
                rw [bucketSpec, if_neg h30, if_pos ⟨by omega, h60⟩]
              simp [agingStep, hdue, bucketable, dueDays, List.filter_cons, hamt, h30, h60, e,
                sumBy, add_assoc]
            · by_cases h90 : (now - due).fdiv 86400 ≤ 90
              · have e : bucketSpec ((now - due).fdiv 86400) = "61-90" := by
                  rw [bucketSpec, if_neg h30, if_neg (by omega), if_pos ⟨by omega, h90⟩]
                simp [agingStep, hdue, bucketable, dueDays, List.filter_cons, hamt, h30, h60,
                  h90, e, sumBy, add_assoc]
              · have e : bucketSpec ((now - due).fdiv 86400) = "90+" := by
                  rw [bucketSpec, if_neg h30, if_neg (by omega), if_neg (by omega)]
                simp [agingStep, hdue, bucketable, dueDays, List.filter_cons, hamt, h30, h60,
                  h90, e, sumBy, add_assoc]

/-- C4: `computeAging` puts every unpaid/overdue invoice with a
parseable due date into exactly one of the four buckets by its
days-overdue with inclusive upper bounds (30 days is still "0-30"),
sums amounts per bucket, always returns all four buckets, and invoices
whose due date is absent or unparseable contribute to no bucket while
the rest are still aggregated. -/
theorem c4_aging_buckets (now : ℤ) (invs : List Invoice) :
    computeAging now invs =
      ⟨bucketSum now "0-30" invs, bucketSum now "31-60" invs,
       bucketSum now "61-90" invs, bucketSum now "90+" invs⟩ ∧
    (∀ d : ℤ, bucketSpec d = "0-30" ∨ bucketSpec d = "31-60" ∨ bucketSpec d = "61-90" ∨
      bucketSpec d = "90+") ∧
    bucketSpec 30 = "0-30" ∧ bucketSpec 31 = "31-60" ∧ bucketSpec 60 = "31-60" ∧
    bucketSpec 61 = "61-90" ∧ bucketSpec 90 = "61-90" ∧ bucketSpec 91 = "90+" ∧
    (∀ i : Invoice, dueDays now i = none → ∀ lab : String, bucketable now lab i = false) := by
  refine ⟨?_, ?_, by decide, by decide, by decide, by decide, by decide, by decide, ?_⟩
  · rw [computeAging, aging_foldl]
    simp [bucketSum]
  · intro d
    rw [bucketSpec]
    split_ifs <;> simp
  · intro i hnone lab
    simp [bucketable, hnone]

/-- Witness for C4: concrete evaluation at the two fixture invoices. -/
theorem c4_aging_buckets_witness :
    computeAging 864000 [wInv1, wInv2] =
      ⟨bucketSum 864000 "0-30" [wInv1, wInv2], bucketSum 864000 "31-60" [wInv1, wInv2],
       bucketSum 864000 "61-90" [wInv1, wInv2], bucketSum 864000 "90+" [wInv1, wInv2]⟩ ∧
    bucketSpec 30 = "0-30" :=
  ⟨(c4_aging_buckets 864000 [wInv1, wInv2]).1, (c4_aging_buckets 864000 [wInv1, wInv2]).2.2.1⟩

/-- C10: an unpaid/overdue invoice whose due date parses and lies in the
future (negative days-overdue) is not skipped: its amount lands in the
"0-30" bucket, so that bucket also holds not-yet-due receivables. -/
theorem c10_negative_days_first_bucket (now : ℤ) (inv : Invoice) (rest : List Invoice)
    (due : ℤ) (a : ℚ)
    (hst : inv.status = "unpaid" ∨ inv.status = "overdue")
    (hdue : inv.dueDate = some (some due))
    (hneg : (now - due).fdiv 86400 < 0)
    (hamt : inv.amount = RawField.num a) :
    bucketSpec ((now - due).fdiv 86400) = "0-30" ∧
    (computeAging now (inv :: rest)).b0to30 = a + (computeAging now rest).b0to30 ∧
    (computeAging now (inv :: rest)).b31to60 = (computeAging now rest).b31to60 ∧
    (computeAging now (inv :: rest)).b61to90 = (computeAging now rest).b61to90 ∧
    (computeAging now (inv :: rest)).b90plus = (computeAging now rest).b90plus := by
  have h30 : (now - due).fdiv 86400 ≤ 30 := by omega
  have hfilter : (inv :: rest).filter
      (fun i => decide (i.status = "unpaid" ∨ i.status = "overdue")) =
      inv :: rest.filter (fun i => decide (i.status = "unpaid" ∨ i.status = "overdue")) :=
    List.filter_cons_of_pos (decide_eq_true hst)
  refine ⟨by rw [bucketSpec, if_pos h30], ?_, ?_, ?_, ?_⟩ <;>
  · rw [computeAging, computeAging, hfilter, List.foldl_cons, aging_foldl, aging_foldl]
    simp [agingStep, hdue, hamt, h30, getNum0, add_assoc]

/-- Witness for C10: at `now = 0` a not-yet-due invoice (negative
days-overdue) is counted in the "0-30" bucket. -/
theorem c10_negative_days_first_bucket_witness :
    (wInvFuture.status = "unpaid" ∨ wInvFuture.status = "overdue") ∧
    ((0 : ℤ) - 86400).fdiv 86400 < 0 ∧
    (computeAging 0 [wInvFuture]).b0to30 = 5 + (computeAging 0 ([] : List Invoice)).b0to30 :=
  have hc := c10_negative_days_first_bucket 0 wInvFuture [] 86400 5 (Or.inl rfl) rfl
    (by decide) rfl
  ⟨Or.inl rfl, by decide, hc.2.1⟩

/-- C3: `computeKPIs` on well-formed invoices returns the sum of paid
amounts as revenue, the sum of unpaid/overdue amounts as outstanding
AR, the sum of hours over all invoices regardless of status, profit at
the fixed 0.75 factor, and a margin that is profit/revenue×100 only
when revenue is positive and exactly 0 otherwise; the empty invoice set
yields all-zero sums and margin 0 with no division by zero. -/
theorem c3_kpis (invs : List Invoice)
    (hws : ∀ i ∈ invs, (∃ q, i.amount = RawField.num q) ∧
      (∃ q, i.hoursBilled = RawField.num q)) :
    (∃ k, computeKPIs invs = .ok k ∧
      k.totalRevenue = sumBy (fun i => getNum0 i.amount)
        (invs.filter (fun i => decide (i.status = "paid"))) ∧
      k.outstandingAr = sumBy (fun i => getNum0 i.amount)
        (invs.filter (fun i => decide (i.status = "unpaid" ∨ i.status = "overdue"))) ∧
      k.billableHours = sumBy (fun i => getNum0 i.hoursBilled) invs ∧
      k.grossProfit = k.totalRevenue * (3 / 4 : ℚ) ∧
      k.grossMarginPercent =
        (if 0 < k.totalRevenue then k.grossProfit / k.totalRevenue * 100 else 0) ∧
      k.daysSalesOutstanding = 45) ∧
    computeKPIs ([] : List Invoice) = .ok ⟨0, 0, 0, 0, 45, 0⟩ := by
  constructor
  · have h1 : exceptSum (fun i => subscriptNum i.amount)
        (invs.filter (fun i => decide (i.status = "paid"))) =
        .ok (sumBy (fun i => getNum0 i.amount)
          (invs.filter (fun i => decide (i.status = "paid")))) := by
      refine exceptSum_ok _ _ _ (fun i hi => ?_)
      obtain ⟨⟨q, hq⟩, _⟩ := hws i (List.mem_of_mem_filter hi)
      rw [hq]
      rfl
    have h2 : exceptSum (fun i => subscriptNum i.amount)
        (invs.filter (fun i => decide (i.status = "unpaid" ∨ i.status = "overdue"))) =
        .ok (sumBy (fun i => getNum0 i.amount)
          (invs.filter (fun i => decide (i.status = "unpaid" ∨ i.status = "overdue")))) := by
      refine exceptSum_ok _ _ _ (fun i hi => ?_)
      obtain ⟨⟨q, hq⟩, _⟩ := hws i (List.mem_of_mem_filter hi)
      rw [hq]
      rfl
    have h3 : exceptSum (fun i => subscriptNum i.hoursBilled) invs =
        .ok (sumBy (fun i => getNum0 i.hoursBilled) invs) := by
      refine exceptSum_ok _ _ _ (fun i hi => ?_)
      obtain ⟨_, ⟨q, hq⟩⟩ := hws i hi
      rw [hq]
      rfl
    have hk : computeKPIs invs = .ok
        { totalRevenue := sumBy (fun i => getNum0 i.amount)
            (invs.filter (fun i => decide (i.status = "paid")))
          grossProfit := sumBy (fun i => getNum0 i.amount)
            (invs.filter (fun i => decide (i.status = "paid"))) * (3 / 4 : ℚ)
          grossMarginPercent := if 0 < sumBy (fun i => getNum0 i.amount)
              (invs.filter (fun i => decide (i.status = "paid"))) then
              sumBy (fun i => getNum0 i.amount)
                (invs.filter (fun i => decide (i.status = "paid"))) * (3 / 4 : ℚ) /
                sumBy (fun i => getNum0 i.amount)
                  (invs.filter (fun i => decide (i.status = "paid"))) * 100
            else 0
          outstandingAr := sumBy (fun i => getNum0 i.amount)
            (invs.filter (fun i => decide (i.status = "unpaid" ∨ i.status = "overdue")))
          daysSalesOutstanding := 45
          billableHours := sumBy (fun i => getNum0 i.hoursBilled) invs } := by
      rw [computeKPIs, h1, h2, h3]
      rfl
    exact ⟨_, hk, rfl, rfl, rfl, rfl, rfl, rfl⟩
  · with_unfolding_all rfl

/-- Witness for C3: concrete evaluation at the two fixture invoices. -/
theorem c3_kpis_witness :
    (∀ i ∈ [wInv1, wInv2], (∃ q, i.amount = RawField.num q) ∧
      (∃ q, i.hoursBilled = RawField.num q)) ∧
    computeKPIs [wInv1, wInv2] = .ok ⟨100, 75, 75, 50, 45, 3⟩ ∧
    (∃ k, computeKPIs [wInv1, wInv2] = .ok k ∧
      k.totalRevenue = sumBy (fun i => getNum0 i.amount)
        ([wInv1, wInv2].filter (fun i => decide (i.status = "paid"))) ∧
      k.outstandingAr = sumBy (fun i => getNum0 i.amount)
        ([wInv1, wInv2].filter (fun i => decide (i.status = "unpaid" ∨ i.status = "overdue"))) ∧
      k.billableHours = sumBy (fun i => getNum0 i.hoursBilled) [wInv1, wInv2] ∧
      k.grossProfit = k.totalRevenue * (3 / 4 : ℚ) ∧
      k.grossMarginPercent =
        (if 0 < k.totalRevenue then k.grossProfit / k.totalRevenue * 100 else 0) ∧
      k.daysSalesOutstanding = 45) :=
  have hws : ∀ i ∈ [wInv1, wInv2], (∃ q, i.amount = RawField.num q) ∧
      (∃ q, i.hoursBilled = RawField.num q) := by
    intro i hi
    rcases List.mem_cons.mp hi with rfl | hi
    · exact ⟨⟨100, rfl⟩, ⟨2, rfl⟩⟩
    · rcases List.mem_cons.mp hi with rfl | hi
      · exact ⟨⟨50, rfl⟩, ⟨1, rfl⟩⟩
      · exact absurd hi (List.not_mem_nil i)
  ⟨hws, by with_unfolding_all rfl, (c3_kpis [wInv1, wInv2] hws).1⟩

/-- C5: the profitability list is sorted non-increasing by revenue, and
the sort is stable — for every revenue value, the rows carrying it
appear in the same relative order as in the unsorted per-client row
list (which follows the input client order). -/
theorem c5_profitability_sorted_stable (cs : List ClientRec) (invs : List Invoice)
    (ps : List Project) :
    (computeProfitability cs invs ps).Pairwise (fun a b => b.revenue ≤ a.revenue) ∧
    ∀ r : ℚ, (computeProfitability cs invs ps).filter (fun x => decide (x.revenue = r)) =
      (profRows cs invs ps).filter (fun x => decide (x.revenue = r)) := by
  have htr : ∀ a b c : ProfRow, decide (b.revenue ≤ a.revenue) = true →
      decide (c.revenue ≤ b.revenue) = true → decide (c.revenue ≤ a.revenue) = true := by
    intro a b c h1 h2
    simp only [decide_eq_true_eq] at h1 h2 ⊢
    exact le_trans h2 h1
  have hto : ∀ a b : ProfRow, decide (b.revenue ≤ a.revenue) = true ∨
      decide (a.revenue ≤ b.revenue) = true := by
    intro a b
    simp only [decide_eq_true_eq]
    exact le_total b.revenue a.revenue
  constructor
  · exact (pySort_pairwise _ htr hto (profRows cs invs ps)).imp
      (fun hx => of_decide_eq_true hx)
  · intro r
    refine pySort_filter _ _ (fun x y hx hy => ?_) (profRows cs invs ps)
    simp only [decide_eq_true_eq] at hx hy ⊢
    rw [hx, hy]

theorem mergeMax_assoc (a b c : Option ℤ) :
    mergeMax (mergeMax a b) c = mergeMax a (mergeMax b c) := by
  rcases a with _ | a <;> rcases b with _ | b <;> rcases c with _ | c <;>
    simp [mergeMax, max_assoc]

theorem maxQ_cons (d : ℤ) (X : List ℤ) : (d :: X).max? = mergeMax (some d) X.max? := by
  cases hm : X.max? with
  | none => rw [List.max?_cons, hm]; rfl
  | some m => rw [List.max?_cons, hm]; rfl

theorem rfmLastDate_fold (invs : List Invoice) :
    ∀ acc : Option ℤ,
      invs.foldl (fun last inv =>
        match effDate inv with
        | none => last
        | some none => last
        | some (some d) =>
          match last with
          | none => some d
          | some l => if l < d then some d else some l) acc =
      mergeMax acc (invs.filterMap parsedEffDate).max? := by
  induction invs with
  | nil =>
    intro acc
    rcases acc with _ | a <;> rfl
  | cons i l ih =>
    intro acc
    rw [List.foldl_cons]
    rcases heff : effDate i with _ | d
    · have hpe : parsedEffDate i = none := by rw [parsedEffDate, heff]
      rw [List.filterMap_cons_none hpe]
      simpa [heff] using ih acc
    · rcases d with _ | t
      · have hpe : parsedEffDate i = none := by rw [parsedEffDate, heff]
        rw [List.filterMap_cons_none hpe]
        simpa [heff] using ih acc
      · have hpe : parsedEffDate i = some t := by rw [parsedEffDate, heff]
        rw [List.filterMap_cons_some hpe, maxQ_cons, ← mergeMax_assoc]
        have hstep : mergeMax acc (some t) =
            (match acc with
             | none => some t
             | some l => if l < t then some t else some l) := by
          rcases acc with _ | a
          · rfl
          · show some (max a t) = (if a < t then some t else some a)
            rcases lt_or_ge a t with hlt | hge
            · rw [if_pos hlt, max_eq_right (le_of_lt hlt)]
            · rw [if_neg (not_lt.mpr hge), max_eq_left hge]
        rw [hstep]
        exact ih _

theorem rfmLastDate_eq_max (invs : List Invoice) :
    rfmLastDate invs = (invs.filterMap parsedEffDate).max? := by
  rw [rfmLastDate, rfmLastDate_fold]
  rfl

theorem rfmLastDate_skip (l1 l2 : List Invoice) (inv : Invoice)
    (h : parsedEffDate inv = none) :
    rfmLastDate (l1 ++ inv :: l2) = rfmLastDate (l1 ++ l2) := by
  rw [rfmLastDate_eq_max, rfmLastDate_eq_max, List.filterMap_append, List.filterMap_append,
    List.filterMap_cons_none h]

/-- C9: each RFM row's `recency_days` is `now` minus the maximum
parseable per-invoice date (`invoice_date` falling back to `paid_date`)
over that client's invoices, in days; the sentinel 9999 is used when no
invoice yields a parseable date; and an invoice contributing no date
signal anywhere in the list leaves the recency computation unchanged
(it does not fail it). -/
theorem c9_recency (now : ℤ) (cs : List ClientRec) (invs : List Invoice)
    (rows : List RfmRow) (h : computeRFM now cs invs = .ok rows)
    (row : RfmRow) (hrow : row ∈ rows) :
    row.recencyDays =
      (match ((rfmGroup invs row.clientId).filterMap parsedEffDate).max? with
       | some l => (now - l).fdiv 86400
       | none => 9999) ∧
    (∀ (l1 l2 : List Invoice) (inv : Invoice), parsedEffDate inv = none →
      rfmLastDate (l1 ++ inv :: l2) = rfmLastDate (l1 ++ l2)) := by
  constructor
  · obtain ⟨base, hb, hrows⟩ := computeRFM_ok_elim h
    have hmem : row ∈ base.map (scoreRow (sortedRecVals base) (sortedFreqVals base)
        (sortedMonVals base)) := by
      rw [hrows] at hrow
      exact (mem_pySort _ _ _).mp hrow
    obtain ⟨raw, hraw, heq⟩ := List.mem_map.mp hmem
    obtain ⟨c, hc, hid, hname, hne, hrec, hfreq, hlast, hmon⟩ := rfmBase_mem hb raw hraw
    subst heq
    simp only [scoreRow]
    rw [hid, hrec, recencyDaysOf, rfmLastDate_eq_max]
  · intro l1 l2 inv hinv
    exact rfmLastDate_skip l1 l2 inv hinv

/-- Witness for C9 at the concrete two-client population. -/
theorem c9_recency_witness :
    computeRFM 864000 wCs [wInv1, wInv2] = .ok wRows ∧ wRow1 ∈ wRows ∧
    wRow1.recencyDays =
      (match ((rfmGroup [wInv1, wInv2] wRow1.clientId).filterMap parsedEffDate).max? with
       | some l => ((864000 : ℤ) - l).fdiv 86400
       | none => 9999) :=
  have h : computeRFM 864000 wCs [wInv1, wInv2] = .ok wRows := by with_unfolding_all rfl
  have hm : wRow1 ∈ wRows := by decide
  ⟨h, hm, (c9_recency 864000 wCs [wInv1, wInv2] wRows h wRow1 hm).1⟩

/-- Counterexample for C8: a client with zero invoices but one project
of 10 hours appears in the profitability output with
`hours_worked = 10`, not with all derived numeric fields equal to 0. -/
theorem c8_counterexample :
    (computeProfitability [⟨"c1", "n", "t", "r"⟩] [] [⟨"c1", RawField.num 10⟩]).map
      (fun r => (r.clientId, r.hoursWorked)) = [("c1", 10)] := by
  with_unfolding_all decide

/-- C8 as amended: a client with zero invoices is absent from the RFM
output, and is present in the profitability output with revenue,
outstanding AR, profit, margin and profit-per-hour all 0 and
`last_invoice_date` absent — but `hours_worked` equals the sum of the
client's projects' hours, which need not be 0. -/
theorem c8_amended (now : ℤ) (cs : List ClientRec) (invs : List Invoice) (ps : List Project)
    (c : ClientRec) (hw : ℚ) (rows : List RfmRow)
    (hc : c ∈ cs)
    (hnoinv : invs.filter (fun i => decide (i.clientId = c.id)) = [])
    (hhours : exceptSum (fun p => pyFloat p.hoursWorked)
      (ps.filter (fun p => decide (p.clientId = c.id))) = .ok hw)
    (hrfm : computeRFM now cs invs = .ok rows) :
    (∀ row ∈ rows, row.clientId ≠ c.id) ∧
    clientRow invs ps c = .ok ⟨c.id, c.name, c.tier, c.region, 0, hw, 0, 0, 0, 0, none⟩ ∧
    (⟨c.id, c.name, c.tier, c.region, 0, hw, 0, 0, 0, 0, none⟩ : ProfRow) ∈
      computeProfitability cs invs ps := by
  have hgroup : rfmGroup invs c.id = [] := by
    rw [rfmGroup, List.filter_eq_nil_iff]
    intro i hi
    have hno := List.filter_eq_nil_iff.mp hnoinv i hi
    simp only [decide_eq_true_eq] at hno ⊢
    exact fun hconj => hno hconj.1
  have hrowok : clientRow invs ps c =
      .ok ⟨c.id, c.name, c.tier, c.region, 0, hw, 0, 0, 0, 0, none⟩ := by
    simp only [clientRow, hnoinv, List.filter_nil, exceptSum, hhours, Bind.bind, Except.bind,
      pure, Except.pure, lastInvDate, List.filterMap_nil]
    simp [zero_mul, zero_div, lt_irrefl, ite_self]
  refine ⟨?_, hrowok, ?_⟩
  · intro row hrow
    obtain ⟨base, hb, hrows⟩ := computeRFM_ok_elim hrfm
    have hmem : row ∈ base.map (scoreRow (sortedRecVals base) (sortedFreqVals base)
        (sortedMonVals base)) := by
      rw [hrows] at hrow
      exact (mem_pySort _ _ _).mp hrow
    obtain ⟨raw, hraw, heq⟩ := List.mem_map.mp hmem
    obtain ⟨c2, hc2, hid2, _, hne2, _⟩ := rfmBase_mem hb raw hraw
    subst heq
    simp only [scoreRow]
    intro heqid
    have hcc : c2.id = c.id := hid2.symm.trans heqid
    rw [hcc] at hne2
    exact hne2 hgroup
  · have hrowmem : (⟨c.id, c.name, c.tier, c.region, 0, hw, 0, 0, 0, 0, none⟩ : ProfRow) ∈
        profRows cs invs ps := by
      rw [profRows]
      refine List.mem_filterMap.mpr ⟨c, hc, ?_⟩
      rw [hrowok]
      rfl
    rw [computeProfitability]
    exact (mem_pySort _ _ _).mpr hrowmem

/-- Witness for the amended C8 at the concrete three-client population. -/
theorem c8_amended_witness :
    wC3 ∈ wCs3 ∧
    [wInv1, wInv2].filter (fun i => decide (i.clientId = wC3.id)) = [] ∧
    computeRFM 864000 wCs3 [wInv1, wInv2] = .ok wRows ∧
    clientRow [wInv1, wInv2] wPs wC3 =
      .ok ⟨"c3", "C", "t", "r", 0, 10, 0, 0, 0, 0, none⟩ ∧
    (⟨"c3", "C", "t", "r", 0, 10, 0, 0, 0, 0, none⟩ : ProfRow) ∈
      computeProfitability wCs3 [wInv1, wInv2] wPs ∧
    (∀ row ∈ wRows, row.clientId ≠ wC3.id) :=
  have hc : wC3 ∈ wCs3 := by decide
  have hnoinv : [wInv1, wInv2].filter (fun i => decide (i.clientId = wC3.id)) = [] := by
    with_unfolding_all rfl
  have hhours : exceptSum (fun p => pyFloat p.hoursWorked)
      (wPs.filter (fun p => decide (p.clientId = wC3.id))) = .ok 10 := by
    with_unfolding_all rfl
  have hrfm : computeRFM 864000 wCs3 [wInv1, wInv2] = .ok wRows := by
    with_unfolding_all rfl
  have h := c8_amended 864000 wCs3 [wInv1, wInv2] wPs wC3 10 wRows hc hnoinv hhours hrfm
  ⟨hc, hnoinv, hrfm, h.2.1, h.2.2, h.1⟩

theorem toOption_eq_some {x : Except PyErr ProfRow} {r : ProfRow} :
    x.toOption = some r ↔ x = .ok r := by
  cases x <;> simp [Except.toOption]

/-- Counterexample for C7: a client whose only malformation is an
unparseable `invoice_date` is NOT omitted — it appears in the
profitability output, with `last_invoice_date` absent. -/
theorem c7_counterexample :
    (computeProfitability [⟨"c1", "n", "t", "r"⟩]
      [⟨"c1", "paid", RawField.num 100, RawField.num 1, some none, none, none⟩] []).map
      (fun r => (r.clientId, r.lastInvoiceDate)) = [("c1", none)] := by
  with_unfolding_all decide

/-- C7 as amended: a truthy non-numeric amount (on a revenue- or
AR-relevant invoice) or non-numeric project hours makes the per-client
computation raise, and exactly the clients whose computation succeeds
appear (in input order), so such a client is omitted while the others
remain; but an unparseable `invoice_date` alone does not omit the
client — it still gets a row, with `last_invoice_date` absent. -/
theorem c7_amended :
    (∀ (invs : List Invoice) (ps : List Project) (c : ClientRec),
      ((∃ i ∈ invs, i.clientId = c.id ∧
          (i.status = "paid" ∨ i.status = "unpaid" ∨ i.status = "overdue") ∧
          i.amount = RawField.nonNumeric) ∨
        (∃ p ∈ ps, p.clientId = c.id ∧ p.hoursWorked = RawField.nonNumeric)) →
      ∃ e, clientRow invs ps c = .error e) ∧
    (∀ (cs : List ClientRec) (invs : List Invoice) (ps : List Project) (row : ProfRow),
      row ∈ profRows cs invs ps ↔ ∃ c ∈ cs, clientRow invs ps c = .ok row) ∧
    (∀ (invs : List Invoice) (ps : List Project) (c : ClientRec),
      (∀ i ∈ invs, i.clientId = c.id → i.amount ≠ RawField.nonNumeric) →
      (∀ p ∈ ps, p.clientId = c.id → p.hoursWorked ≠ RawField.nonNumeric) →
      ∃ r, clientRow invs ps c = .ok r ∧
        ((∃ i ∈ invs, i.clientId = c.id ∧ i.invoiceDate = some none) →
          r.lastInvoiceDate = none)) := by
  refine ⟨?_, ?_, ?_⟩
  · intro invs ps c hbad
    rcases h1 : exceptSum (fun i => pyFloat i.amount)
        ((invs.filter (fun i => decide (i.clientId = c.id))).filter
          (fun i => decide (i.status = "paid"))) with e1 | v1
    · exact ⟨e1, by simp only [clientRow, Bind.bind, Except.bind, h1]⟩
    · rcases h2 : exceptSum (fun p => pyFloat p.hoursWorked)
          (ps.filter (fun p => decide (p.clientId = c.id))) with e2 | v2
      · exact ⟨e2, by simp only [clientRow, Bind.bind, Except.bind, h1, h2]⟩
      · rcases h3 : exceptSum (fun i => pyFloat i.amount)
            ((invs.filter (fun i => decide (i.clientId = c.id))).filter
              (fun i => decide (i.status = "unpaid" ∨ i.status = "overdue"))) with e3 | v3
        · exact ⟨e3, by simp only [clientRow, Bind.bind, Except.bind, h1, h2, h3]⟩
        · exfalso
          have herrf : ∀ i : Invoice, i.amount = RawField.nonNumeric →
              pyFloat i.amount = .error .valueError := by
            intro i hi
            rw [hi]
            rfl
          rcases hbad with ⟨i, hi, hcid, hst, hnn⟩ | ⟨p, hp, hcid, hnn⟩
          · rcases hst with hst | hst | hst
            · have him : i ∈ (invs.filter (fun i => decide (i.clientId = c.id))).filter
                  (fun i => decide (i.status = "paid")) :=
                List.mem_filter.mpr ⟨List.mem_filter.mpr ⟨hi, decide_eq_true hcid⟩,
                  decide_eq_true hst⟩
              obtain ⟨e, he⟩ := exceptSum_error (fun i => pyFloat i.amount) _ him (herrf i hnn)
              rw [h1] at he
              exact absurd he (by simp)
            · have him : i ∈ (invs.filter (fun i => decide (i.clientId = c.id))).filter
                  (fun i => decide (i.status = "unpaid" ∨ i.status = "overdue")) :=
                List.mem_filter.mpr ⟨List.mem_filter.mpr ⟨hi, decide_eq_true hcid⟩,
                  decide_eq_true (Or.inl hst)⟩
              obtain ⟨e, he⟩ := exceptSum_error (fun i => pyFloat i.amount) _ him (herrf i hnn)
              rw [h3] at he
              exact absurd he (by simp)
            · have him : i ∈ (invs.filter (fun i => decide (i.clientId = c.id))).filter
                  (fun i => decide (i.status = "unpaid" ∨ i.status = "overdue")) :=
                List.mem_filter.mpr ⟨List.mem_filter.mpr ⟨hi, decide_eq_true hcid⟩,
                  decide_eq_true (Or.inr hst)⟩
              obtain ⟨e, he⟩ := exceptSum_error (fun i => pyFloat i.amount) _ him (herrf i hnn)
              rw [h3] at he
              exact absurd he (by simp)
          · have hpm : p ∈ ps.filter (fun p => decide (p.clientId = c.id)) :=
              List.mem_filter.mpr ⟨hp, decide_eq_true hcid⟩
            have herrp : pyFloat p.hoursWorked = .error .valueError := by
              rw [hnn]
              rfl
            obtain ⟨e, he⟩ := exceptSum_error (fun p => pyFloat p.hoursWorked) _ hpm herrp
            rw [h2] at he
            exact absurd he (by simp)
  · intro cs invs ps row
    rw [profRows, List.mem_filterMap]
    constructor
    · rintro ⟨c, hc, hsome⟩
      exact ⟨c, hc, toOption_eq_some.mp hsome⟩
    · rintro ⟨c, hc, hok⟩
      exact ⟨c, hc, toOption_eq_some.mpr hok⟩
  · intro invs ps c hamt hhrs
    have h1 : exceptSum (fun i => pyFloat i.amount)
        ((invs.filter (fun i => decide (i.clientId = c.id))).filter
          (fun i => decide (i.status = "paid"))) =
        .ok (sumBy (fun i => getNum0 i.amount)
          ((invs.filter (fun i => decide (i.clientId = c.id))).filter
            (fun i => decide (i.status = "paid")))) := by
      refine exceptSum_ok _ _ _ (fun i hi => ?_)
      have hmem := List.mem_of_mem_filter hi
      have hcid : i.clientId = c.id :=
        of_decide_eq_true (List.mem_filter.mp hmem).2
      have := hamt i (List.mem_of_mem_filter hmem) hcid
      cases ha : i.amount with
      | missing => rfl
      | nonNumeric => exact absurd ha this
      | num q => rw [pyFloat, getNum0]
    have h2 : exceptSum (fun p => pyFloat p.hoursWorked)
        (ps.filter (fun p => decide (p.clientId = c.id))) =
        .ok (sumBy (fun p => getNum0 p.hoursWorked)
          (ps.filter (fun p => decide (p.clientId = c.id)))) := by
      refine exceptSum_ok _ _ _ (fun p hp => ?_)
      have hcid : p.clientId = c.id := of_decide_eq_true (List.mem_filter.mp hp).2
      have := hhrs p (List.mem_of_mem_filter hp) hcid
      cases ha : p.hoursWorked with
      | missing => rfl
      | nonNumeric => exact absurd ha this
      | num q => rw [pyFloat, getNum0]
    have h3 : exceptSum (fun i => pyFloat i.amount)
        ((invs.filter (fun i => decide (i.clientId = c.id))).filter
          (fun i => decide (i.status = "unpaid" ∨ i.status = "overdue"))) =
        .ok (sumBy (fun i => getNum0 i.amount)
          ((invs.filter (fun i => decide (i.clientId = c.id))).filter
            (fun i => decide (i.status = "unpaid" ∨ i.status = "overdue")))) := by
      refine exceptSum_ok _ _ _ (fun i hi => ?_)
      have hmem := List.mem_of_mem_filter hi
      have hcid : i.clientId = c.id :=
        of_decide_eq_true (List.mem_filter.mp hmem).2
      have := hamt i (List.mem_of_mem_filter hmem) hcid
      cases ha : i.amount with
      | missing => rfl
      | nonNumeric => exact absurd ha this
      | num q => rw [pyFloat, getNum0]
    rcases hok : clientRow invs ps c with e | r
    · exfalso
      simp only [clientRow, h1, h2, h3, Bind.bind, Except.bind, pure, Except.pure] at hok
      exact absurd hok (by simp)
    · refine ⟨r, rfl, ?_⟩
      rintro ⟨i, hi, hcid, hdate⟩
      simp only [clientRow, h1, h2, h3, Bind.bind, Except.bind, pure, Except.pure,
        Except.ok.injEq] at hok
      rw [← hok]
      show lastInvDate (invs.filter (fun i => decide (i.clientId = c.id))) = none
      rw [lastInvDate]
      have hvmem : (none : Option ℤ) ∈
          (invs.filter (fun i => decide (i.clientId = c.id))).filterMap
            (fun i => i.invoiceDate) :=
        List.mem_filterMap.mpr ⟨i, List.mem_filter.mpr ⟨hi, decide_eq_true hcid⟩, hdate⟩
      split
      · rfl
      · rename_i hvne
        have hall : ((invs.filter (fun i => decide (i.clientId = c.id))).filterMap
            (fun i => i.invoiceDate)).all (fun d => d.isSome) = false := by
          rcases hb : ((invs.filter (fun i => decide (i.clientId = c.id))).filterMap
              (fun i => i.invoiceDate)).all (fun d => d.isSome) with _ | _
          · exact hb
          · have := List.all_eq_true.mp hb (none : Option ℤ) hvmem
            simp at this
        rw [if_neg (by rw [hall]; simp)]

/-- Witness for the amended C7: the non-numeric-amount client's
computation raises (so it is omitted), while the unparseable-date
client still gets a row with `last_invoice_date` absent. -/
theorem c7_amended_witness :
    (∃ e, clientRow [wBadAmt] [] ⟨"cX", "X", "t", "r"⟩ = .error e) ∧
    (∃ r, clientRow [wBadDate] [] ⟨"c1", "n", "t", "r"⟩ = .ok r ∧ r.lastInvoiceDate = none) := by
  constructor
  · refine c7_amended.1 [wBadAmt] [] ⟨"cX", "X", "t", "r"⟩ (Or.inl ⟨wBadAmt, ?_, rfl, Or.inl rfl, rfl⟩)
    exact List.mem_singleton.mpr rfl
  · obtain ⟨r, hr, himp⟩ := c7_amended.2.2 [wBadDate] [] ⟨"c1", "n", "t", "r"⟩
      (by with_unfolding_all decide) (by with_unfolding_all decide)
    exact ⟨r, hr, himp ⟨wBadDate, List.mem_singleton.mpr rfl, rfl, rfl⟩⟩

/-- Counterexample for C6: `get_kpis` subscripts `inv["amount"]`
directly, so a single paid invoice with a missing amount makes the
whole KPI computation raise instead of being treated as 0. -/
theorem c6_counterexample : computeKPIs [wMissingAmt] = .error .keyError := by
  with_unfolding_all rfl

/-- C6 as amended: the KPI computation (`get_kpis`) raises — aborting
the whole aggregation — whenever an invoice has a missing or
non-numeric amount while its status is paid/unpaid/overdue, or a
missing or non-numeric hours field; only the per-client profitability
aggregation treats a missing amount/hours field as 0 and completes. -/
theorem c6_amended :
    (∀ (invs : List Invoice) (i : Invoice), i ∈ invs →
      ((i.status = "paid" ∨ i.status = "unpaid" ∨ i.status = "overdue") ∧
        (i.amount = RawField.missing ∨ i.amount = RawField.nonNumeric) ∨
       (i.hoursBilled = RawField.missing ∨ i.hoursBilled = RawField.nonNumeric)) →
      ∃ e, computeKPIs invs = .error e) ∧
    pyFloat RawField.missing = .ok 0 ∧
    (∀ l : List Invoice, (∀ i ∈ l, i.amount ≠ RawField.nonNumeric) →
      exceptSum (fun i => pyFloat i.amount) l = .ok (sumBy (fun i => getNum0 i.amount) l)) := by
  refine ⟨?_, rfl, ?_⟩
  · intro invs i hi hbad
    have herr : ∀ f : RawField, f = RawField.missing ∨ f = RawField.nonNumeric →
        ∃ e0, subscriptNum f = .error e0 := by
      rintro f (rfl | rfl)
      · exact ⟨.keyError, rfl⟩
      · exact ⟨.typeError, rfl⟩
    rcases h1 : exceptSum (fun i => subscriptNum i.amount)
        (invs.filter (fun i => decide (i.status = "paid"))) with e1 | v1
    · exact ⟨e1, by simp only [computeKPIs, Bind.bind, Except.bind, h1]⟩
    · rcases h2 : exceptSum (fun i => subscriptNum i.amount)
          (invs.filter (fun i => decide (i.status = "unpaid" ∨ i.status = "overdue"))) with
        e2 | v2
      · exact ⟨e2, by simp only [computeKPIs, Bind.bind, Except.bind, h1, h2]⟩
      · rcases h3 : exceptSum (fun i => subscriptNum i.hoursBilled) invs with e3 | v3
        · exact ⟨e3, by simp only [computeKPIs, Bind.bind, Except.bind, h1, h2, h3]⟩
        · exfalso
          rcases hbad with ⟨hst, hbadamt⟩ | hbadhrs
          · obtain ⟨e0, he0⟩ := herr i.amount hbadamt
            rcases hst with hst | hst | hst
            · have him : i ∈ invs.filter (fun i => decide (i.status = "paid")) :=
                List.mem_filter.mpr ⟨hi, decide_eq_true hst⟩
              obtain ⟨e, he⟩ :=
                exceptSum_error (fun i => subscriptNum i.amount) _ him he0
              rw [h1] at he
              exact absurd he (by simp)
            · have him : i ∈ invs.filter
                  (fun i => decide (i.status = "unpaid" ∨ i.status = "overdue")) :=
                List.mem_filter.mpr ⟨hi, decide_eq_true (Or.inl hst)⟩
              obtain ⟨e, he⟩ :=
                exceptSum_error (fun i => subscriptNum i.amount) _ him he0
              rw [h2] at he
              exact absurd he (by simp)
            · have him : i ∈ invs.filter
                  (fun i => decide (i.status = "unpaid" ∨ i.status = "overdue")) :=
                List.mem_filter.mpr ⟨hi, decide_eq_true (Or.inr hst)⟩
              obtain ⟨e, he⟩ :=
                exceptSum_error (fun i => subscriptNum i.amount) _ him he0
              rw [h2] at he
              exact absurd he (by simp)
          · have herr2 : ∃ e0, subscriptNum i.hoursBilled = .error e0 := by
              rcases hbadhrs with hh | hh
              · exact ⟨.keyError, by rw [hh]; rfl⟩
              · exact ⟨.typeError, by rw [hh]; rfl⟩
            obtain ⟨e0, he0⟩ := herr2
            obtain ⟨e, he⟩ :=
              exceptSum_error (fun i => subscriptNum i.hoursBilled) _ hi he0
            rw [h3] at he
            exact absurd he (by simp)
  · intro l hl
    refine exceptSum_ok _ _ _ (fun i hi => ?_)
    have := hl i hi
    cases ha : i.amount with
    | missing => rfl
    | nonNumeric => exact absurd ha this
    | num q => rw [pyFloat, getNum0]

/-- Witness for the amended C6: one missing-amount paid invoice aborts
the KPI computation, while the profitability-style sum treats it as 0. -/
theorem c6_amended_witness :
    (∃ e, computeKPIs [wMissingAmt] = .error e) ∧
    exceptSum (fun i => pyFloat i.amount) [wMissingAmt] =
      .ok (sumBy (fun i => getNum0 i.amount) [wMissingAmt]) := by
  constructor
  · exact c6_amended.1 [wMissingAmt] wMissingAmt
      (List.mem_singleton.mpr rfl) (Or.inl ⟨Or.inl rfl, Or.inl rfl⟩)
  · exact c6_amended.2.2 [wMissingAmt] (by with_unfolding_all decide)


/-- Witness for C5 at the concrete two-client population. -/
theorem c5_profitability_sorted_stable_witness :
    (computeProfitability wCs [wInv1, wInv2] wPs).Pairwise
      (fun a b => b.revenue ≤ a.revenue) ∧
    (computeProfitability wCs [wInv1, wInv2] wPs).filter (fun x => decide (x.revenue = 100)) =
      (profRows wCs [wInv1, wInv2] wPs).filter (fun x => decide (x.revenue = 100)) :=
  ⟨(c5_profitability_sorted_stable wCs [wInv1, wInv2] wPs).1,
   (c5_profitability_sorted_stable wCs [wInv1, wInv2] wPs).2 100⟩
